import Mathlib

/-!
Verification of cargo-dockerize (src/main.rs).

The program is a sequential pipeline orchestrator. We shallowly embed it:

* Rust strings are embedded as List Char; the Rust standard string
  operations used by the source (trim, starts_with, split at a character,
  trim_matches) are translated below as structurally recursive functions.
* A manifest file is embedded as the list of its lines, each a List Char,
  matching the view the source takes after fs::read_to_string + .lines().
* Filesystem paths are embedded as lists of components listed innermost
  first, so that PathBuf.pop is List.tail and the ancestors of a directory
  are exactly its suffixes.
* The effects of the outside world (filesystem probes, the git subprocess,
  the exit statuses of the three pipeline subprocesses) are supplied by an
  Env record of oracles; main becomes the pure function run, which returns
  the ordered trace of attempted external command invocations together
  with the Ok or error outcome of the Rust main.
-/

namespace CargoDockerize

/-- Characters of a Lean string literal, used to transcribe Rust string
literals into the List Char embedding. -/
def str (x : String) : List Char := x.toList

/-- Whitespace test used by Rust str::trim, restricted to the ASCII
whitespace that can occur in the inputs we model. -/
def isWs (c : Char) : Bool := c.isWhitespace

/-- Removes the longest suffix whose characters all satisfy p; the
right-hand half of Rust str::trim and str::trim_matches. -/
def dropRightWhile (p : Char → Bool) (l : List Char) : List Char :=
  (l.reverse.dropWhile p).reverse

/-- Rust str::trim on the List Char embedding. -/
def trim (l : List Char) : List Char :=
  dropRightWhile isWs (l.dropWhile isWs)

/-- Rust str::trim_matches with a single-character pattern: removes every
leading and every trailing occurrence of c. -/
def trimMatches (c : Char) (l : List Char) : List Char :=
  dropRightWhile (fun d => d == c) (l.dropWhile (fun d => d == c))

/-- Rust str::starts_with with a string pattern: startsWith l pat is true
when pat is an initial segment of l. -/
def startsWith : List Char → List Char → Bool
  | _, [] => true
  | [], _ :: _ => false
  | c :: l, p :: pat => c == p && startsWith l pat

/-- Rust str::split with a single-character separator: splits at every
occurrence of c, keeping empty segments, never returning an empty list. -/
def splitChar (c : Char) : List Char → List (List Char)
  | [] => [[]]
  | x :: xs =>
    if x == c then [] :: splitChar c xs
    else
      match splitChar c xs with
      | [] => [[x]]
      | y :: ys => (x :: y) :: ys

/-- Predicate selecting the manifest line the Metadata Reader uses for the
package name: src/main.rs line 255, line.trim().starts_with("name ="). -/
def pNameLine (l : List Char) : Bool := startsWith (trim l) (str "name =")

/-- Predicate selecting the manifest line the Metadata Reader uses for the
package version: src/main.rs line 259. -/
def pVersionLine (l : List Char) : Bool := startsWith (trim l) (str "version =")

/-- Value extraction applied to the selected name line and version line:
src/main.rs lines 262-266 and 268-272, split('=').nth(1) followed by
trim and trim_matches with a double quote. Returns none when the line has
no '=' character (the nth(1) context error of the source). -/
def extractValue (l : List Char) : Option (List Char) :=
  match (splitChar '=' l)[1]? with
  | none => none
  | some v => some (trimMatches '"' (trim v))

/-- get_cargo_metadata, src/main.rs lines 249-275, applied to the lines of
Cargo.toml. none models an Err carrying one of the four context messages
of the source; some (name, version) models Ok. -/
def get_cargo_metadata (ls : List (List Char)) : Option (List Char × List Char) :=
  match ls.find? pNameLine with
  | none => none
  | some name_line =>
    match ls.find? pVersionLine with
    | none => none
    | some version_line =>
      match extractValue name_line with
      | none => none
      | some name =>
        match extractValue version_line with
        | none => none
        | some version => some (name, version)

/-- find_project_root, src/main.rs lines 233-246. Directories are lists of
components innermost first, so the loop that joins Cargo.toml, tests
existence and pops becomes structural recursion on the list; hasManifest d
is the oracle for d.join("Cargo.toml").exists(). The empty list is the
filesystem root, where pop fails and the source bails with NotFound. -/
def find_project_root (hasManifest : List String → Bool) : List String → Option (List String)
  | [] => if hasManifest [] then some [] else none
  | c :: parent =>
    if hasManifest (c :: parent) then some (c :: parent)
    else find_project_root hasManifest parent

/-- Outcome of attempting the git subprocess, supplied by the environment:
ran is false when Command::output itself failed (tool missing), success
mirrors status.success(), and stdout is none when the captured bytes were
not valid UTF-8. -/
structure GitOutcome where
  ran : Bool
  success : Bool
  stdout : Option (List Char)
  deriving DecidableEq

/-- get_git_revision, src/main.rs lines 214-230: Ok (trimmed stdout) only
when the command ran, exited successfully and produced decodable output;
every other case is an Err. -/
def get_git_revision (g : GitOutcome) : Option (List Char) :=
  if g.ran then
    if g.success then
      match g.stdout with
      | some out => some (trim out)
      | none => none
    else none
  else none

/-- The revision string main actually uses: src/main.rs line 89,
get_git_revision(..).unwrap_or_else(|_| String::from("unknown")). -/
def gitRevisionUsed (g : GitOutcome) : List Char :=
  (get_git_revision g).getD (str "unknown")

/-- The CLI arguments of the dockerize subcommand, src/main.rs lines
19-71. exportImage is the --export flag; tags is already split at commas
by the clap value_delimiter. -/
structure Args where
  exportImage : Bool
  name : Option (List Char)
  tag : Option (List Char)
  dockerfile : List Char
  tags : List (List Char)
  application_name : Option (List Char)
  title : Option (List Char)
  description : Option (List Char)
  authors : Option (List Char)
  url : Option (List Char)
  source : Option (List Char)
  vendor : Option (List Char)
  licenses : Option (List Char)

/-- add_label, src/main.rs lines 208-211: appends "--label" and
"key=value" to the docker build argument vector. -/
def add_label (args : List (List Char)) (key value : List Char) : List (List Char) :=
  args ++ [str "--label", key ++ '=' :: value]

/-- The if-let pattern of src/main.rs lines 139-166: add_label is called
exactly when the optional CLI value is present. -/
def addOptLabel (args : List (List Char)) (key : List Char) (o : Option (List Char)) : List (List Char) :=
  match o with
  | some v => add_label args key v
  | none => args

/-- The docker build argument vector assembled by main, src/main.rs lines
110-169: base arguments, one -t per additional tag, the three always-on
labels, the title label defaulted to the image name (lines 133-137), the
optional labels in source order, and the build context dot. -/
def buildDockerArgs (a : Args) (image_name image_tag image_full git_revision current_time : List Char) : List (List Char) :=
  let args0 := [str "build", str "-t", image_full, str "-f", a.dockerfile]
  let args1 := a.tags.foldl (fun acc tag => acc ++ [str "-t", image_name ++ ':' :: tag]) args0
  let args2 := add_label args1 (str "org.opencontainers.image.created") current_time
  let args3 := add_label args2 (str "org.opencontainers.image.version") image_tag
  let args4 := add_label args3 (str "org.opencontainers.image.revision") git_revision
  let args5 := add_label args4 (str "org.opencontainers.image.title") (a.title.getD image_name)
  let args6 := addOptLabel args5 (str "org.opencontainers.image.description") a.description
  let args7 := addOptLabel args6 (str "org.opencontainers.image.authors") a.authors
  let args8 := addOptLabel args7 (str "org.opencontainers.image.url") a.url
  let args9 := addOptLabel args8 (str "org.opencontainers.image.source") a.source
  let args10 := addOptLabel args9 (str "org.opencontainers.image.vendor") a.vendor
  let args11 := addOptLabel args10 (str "org.opencontainers.image.licenses") a.licenses
  let args12 := addOptLabel args11 (str "application_name") a.application_name
  args12 ++ [str "."]

/-- One attempted external command: program, argument vector, working
directory (innermost component first). -/
structure Invocation where
  prog : List Char
  args : List (List Char)
  cwd : List String
  deriving DecidableEq

/-- The error cases of the Rust main, one per bail! or context site on the
fatal path. -/
inductive PErr where
  | rootNotFound
  | manifestReadFailed
  | metadataParseFailed
  | dockerfileMissing
  | cargoBuildSpawnFailed
  | cargoBuildFailed
  | dockerBuildSpawnFailed
  | dockerBuildFailed
  | exportSpawnFailed
  | exportFailed
  deriving DecidableEq

/-- Result of the Rust main: Ok(()) or a propagated error. -/
inductive Outcome where
  | ok : Outcome
  | err : PErr → Outcome
  deriving DecidableEq

/-- Process exit status produced by anyhow for a Result-returning main:
zero exactly on Ok. -/
def exitCode : Outcome → Nat
  | Outcome.ok => 0
  | Outcome.err _ => 1

/-- External-world oracles consumed by one run of main: the working
directory, the manifest-existence probe used by find_project_root, the
manifest reader, the git outcome, the Dockerfile existence probe for
root.join(dockerfile), the spawn/exit outcomes of the three pipeline
subprocesses (none = spawn failure, some b = ran with success b), and the
formatted current time of src/main.rs line 125. -/
structure Env where
  cwd : List String
  hasManifest : List String → Bool
  readManifest : List String → Option (List (List Char))
  git : GitOutcome
  fileExists : List String → List Char → Bool
  cargoBuildExec : Option Bool
  dockerBuildExec : Option Bool
  exportExec : Option Bool
  now : List Char

/-- The git rev-parse HEAD invocation of src/main.rs lines 215-219. -/
def gitInv (root : List String) : Invocation :=
  ⟨str "git", [str "rev-parse", str "HEAD"], root⟩

/-- The cargo build --release invocation of src/main.rs lines 99-103. -/
def cargoInv (root : List String) : Invocation :=
  ⟨str "cargo", [str "build", str "--release"], root⟩

/-- The docker build invocation of src/main.rs lines 173-177. -/
def dockerInv (root : List String) (dargs : List (List Char)) : Invocation :=
  ⟨str "docker", dargs, root⟩

/-- The sh -c export invocation of src/main.rs lines 189-194; the command
string pipes docker save through gzip into the archive file, so the
archive is created relative to the working directory of the invocation,
which is the project root. -/
def shInv (root : List String) (image_full archive_name : List Char) : Invocation :=
  ⟨str "sh", [str "-c", str "docker save " ++ image_full ++ (str " | gzip > " ++ archive_name)], root⟩

/-- The Rust main, src/main.rs lines 73-205, as a pure function from the
environment oracles and parsed CLI arguments to the ordered trace of
attempted external commands and the final outcome. Every branch mirrors a
source control-flow point, in source order: root location, manifest read,
metadata parse, name/tag defaulting (lines 84-86), revision resolution
with its unwrap_or fallback (line 89), the Dockerfile existence check
(lines 92-95), cargo build, docker build, and the optional export. -/
def run (env : Env) (a : Args) : List Invocation × Outcome :=
  match find_project_root env.hasManifest env.cwd with
  | none => ([], Outcome.err PErr.rootNotFound)
  | some project_root =>
    match env.readManifest project_root with
    | none => ([], Outcome.err PErr.manifestReadFailed)
    | some content =>
      match get_cargo_metadata content with
      | none => ([], Outcome.err PErr.metadataParseFailed)
      | some metadata =>
        let image_name := a.name.getD metadata.1
        let image_tag := a.tag.getD metadata.2
        let image_full := image_name ++ ':' :: image_tag
        let git_revision := gitRevisionUsed env.git
        let tr1 := [gitInv project_root]
        match env.fileExists project_root a.dockerfile with
        | false => (tr1, Outcome.err PErr.dockerfileMissing)
        | true =>
          let tr2 := tr1 ++ [cargoInv project_root]
          match env.cargoBuildExec with
          | none => (tr2, Outcome.err PErr.cargoBuildSpawnFailed)
          | some false => (tr2, Outcome.err PErr.cargoBuildFailed)
          | some true =>
            let dargs := buildDockerArgs a image_name image_tag image_full git_revision env.now
            let tr3 := tr2 ++ [dockerInv project_root dargs]
            match env.dockerBuildExec with
            | none => (tr3, Outcome.err PErr.dockerBuildSpawnFailed)
            | some false => (tr3, Outcome.err PErr.dockerBuildFailed)
            | some true =>
              match a.exportImage with
              | true =>
                let archive_name := image_name ++ '-' :: (image_tag ++ str ".tgz")
                let tr4 := tr3 ++ [shInv project_root image_full archive_name]
                match env.exportExec with
                | none => (tr4, Outcome.err PErr.exportSpawnFailed)
                | some false => (tr4, Outcome.err PErr.exportFailed)
                | some true => (tr4, Outcome.ok)
              | false => (tr3, Outcome.ok)

/-- Concatenation of the images of a list under a list-valued function,
used to state the shapes of assembled argument vectors. -/
def catMap (g : α → List β) : List α → List β
  | [] => []
  | x :: xs => g x ++ catMap g xs

/-- Spec-side shape of one optional label: one pair when the CLI value was
supplied, nothing when it was omitted. -/
def optLabel (key : List Char) : Option (List Char) → List (List Char × List Char)
  | some v => [(key, v)]
  | none => []

/-- Spec-side rendering of an ordered label sequence inside the docker
build argument vector: "--label" followed by "key=value" for each pair. -/
def labelBlock (ps : List (List Char × List Char)) : List (List Char) :=
  catMap (fun p => [str "--label", p.1 ++ '=' :: p.2]) ps

/-- Modelled from the spec: the value a selected manifest line should
yield according to the words, the entire remainder of the line after the
first '=' character, trimmed of whitespace and of surrounding double
quotes. Stated for comparison with extractValue, which follows the
source. -/
def valueAfterFirstEq (l : List Char) : Option (List Char) :=
  match splitChar '=' l with
  | [] => none
  | [_] => none
  | _ :: rest => some (trimMatches '"' (trim (List.intercalate ['='] rest)))

/-- Projection of a run trace to the programs of the three pipeline
commands, discarding the best-effort git lookup. -/
def pipeProgs (tr : List Invocation) : List (List Char) :=
  (tr.map Invocation.prog).filter (fun p => !(p == str "git"))

/-- A fully cooperating environment used to instantiate theorems at
concrete inputs: the manifest sits at the filesystem root, names the
package svc at version 0.1.0, and every subprocess succeeds. -/
def goodEnv : Env :=
  ⟨[], fun p => decide (p = ([] : List String)),
   fun _ => some [str "[package]", str "name = \"svc\"", str "version = \"0.1.0\""],
   ⟨true, true, some (str "deadbeef")⟩,
   fun _ _ => true, some true, some true, some true,
   str "2024-01-01T00:00:00Z"⟩

/-- The cooperating environment with a git lookup that ran but exited
non-zero, used to instantiate the revision-fallback theorem. -/
def gitFailEnv : Env :=
  ⟨[], fun p => decide (p = ([] : List String)),
   fun _ => some [str "[package]", str "name = \"svc\"", str "version = \"0.1.0\""],
   ⟨true, false, none⟩,
   fun _ _ => true, some true, some true, some true,
   str "2024-01-01T00:00:00Z"⟩

/-- CLI arguments with no flags supplied beyond the defaulted dockerfile
path. -/
def baseArgs : Args :=
  ⟨false, none, none, str "Dockerfile", [], none, none, none, none, none, none, none, none⟩

/-- Arguments of the worked end-to-end example of the spec: an explicit
tag 1.2.3 and additional tags beta,edge split at the comma. -/
def exampleArgs : Args :=
  ⟨false, none, some (str "1.2.3"), str "Dockerfile", splitChar ',' (str "beta,edge"),
   none, none, none, none, none, none, none, none⟩

/-- The cooperating environment except that cargo build exits non-zero. -/
def cargoFailEnv : Env :=
  ⟨[], fun p => decide (p = ([] : List String)),
   fun _ => some [str "[package]", str "name = \"svc\"", str "version = \"0.1.0\""],
   ⟨true, true, some (str "deadbeef")⟩,
   fun _ _ => true, some false, some true, some true,
   str "2024-01-01T00:00:00Z"⟩

/-- The cooperating environment except that the Dockerfile path does not
exist under the project root. -/
def noDockerfileEnv : Env :=
  ⟨[], fun p => decide (p = ([] : List String)),
   fun _ => some [str "[package]", str "name = \"svc\"", str "version = \"0.1.0\""],
   ⟨true, true, some (str "deadbeef")⟩,
   fun _ _ => false, some true, some true, some true,
   str "2024-01-01T00:00:00Z"⟩

/-- Arguments requesting an export of the image tagged 1.2.3. -/
def exportArgs : Args :=
  ⟨true, none, some (str "1.2.3"), str "Dockerfile", [],
   none, none, none, none, none, none, none, none⟩

/-! ## Helper lemmas on the embedded string operations -/

theorem splitChar_ne_nil (c : Char) (l : List Char) : splitChar c l ≠ [] := by
  cases l with
  | nil => simp [splitChar]
  | cons x xs =>
    simp only [splitChar]
    by_cases h : x == c
    · simp [h]
    · simp only [h]
      cases splitChar c xs <;> simp

theorem splitChar_of_not_mem (c : Char) (l : List Char) (h : c ∉ l) : splitChar c l = [l] := by
  induction l with
  | nil => rfl
  | cons x xs ih =>
    have hx : ¬ (x == c) = true := by
      simp only [beq_iff_eq]
      intro he; exact h (he ▸ List.mem_cons_self x xs)
    have hxs : c ∉ xs := fun hm => h (List.mem_cons_of_mem x hm)
    simp only [splitChar, hx, if_neg, ih hxs]
    simp [hx]

theorem splitChar_append (c : Char) (a b : List Char) (h : c ∉ a) :
    splitChar c (a ++ c :: b) = a :: splitChar c b := by
  induction a with
  | nil => simp [splitChar]
  | cons x xs ih =>
    have hx : (x == c) = false := by
      simp only [beq_eq_false_iff_ne, ne_eq]
      intro he; exact h (he ▸ List.mem_cons_self x xs)
    have hxs : c ∉ xs := fun hm => h (List.mem_cons_of_mem x hm)
    simp only [List.cons_append, splitChar, List.append_eq, hx, Bool.false_eq_true, if_false]
    rw [ih hxs]

theorem two_le_splitChar_length (c : Char) (l : List Char) (h : c ∈ l) :
    2 ≤ (splitChar c l).length := by
  induction l with
  | nil => cases h
  | cons x xs ih =>
    by_cases hx : (x == c) = true
    · simp only [splitChar, hx, if_pos, List.length_cons]
      have h1 : 1 ≤ (splitChar c xs).length :=
        Nat.one_le_iff_ne_zero.mpr (by simpa using splitChar_ne_nil c xs)
      omega
    · have hmem : c ∈ xs := by
        rcases List.mem_cons.mp h with h | h
        · exact absurd (by simp [h]) hx
        · exact h
      have h2 := ih hmem
      simp only [splitChar, hx, if_neg]
      cases hsp : splitChar c xs with
      | nil => exact absurd hsp (splitChar_ne_nil c xs)
      | cons y ys =>
        rw [hsp] at h2
        simpa using h2

theorem dropWhile_append_of_all (p : Char → Bool) (w l : List Char)
    (h : ∀ a ∈ w, p a = true) : (w ++ l).dropWhile p = l.dropWhile p := by
  induction w with
  | nil => rfl
  | cons x xs ih =>
    have hx : p x = true := h x (List.mem_cons_self x xs)
    simp only [List.cons_append, List.dropWhile_cons, hx, if_pos]
    exact ih (fun a ha => h a (List.mem_cons_of_mem x ha))

theorem dropWhile_eq_self_of_all (p : Char → Bool) (l : List Char)
    (h : ∀ a ∈ l, p a = false) : l.dropWhile p = l := by
  cases l with
  | nil => rfl
  | cons x xs =>
    have hx : p x = false := h x (List.mem_cons_self x xs)
    simp [List.dropWhile_cons, hx]

theorem dropRightWhile_append_of_all (p : Char → Bool) (l w : List Char)
    (h : ∀ a ∈ w, p a = true) : dropRightWhile p (l ++ w) = dropRightWhile p l := by
  unfold dropRightWhile
  rw [List.reverse_append, dropWhile_append_of_all p w.reverse l.reverse
    (fun a ha => h a (List.mem_reverse.mp ha))]

theorem dropRightWhile_concat_of_neg (p : Char → Bool) (l : List Char) (a : Char)
    (h : p a = false) : dropRightWhile p (l ++ [a]) = l ++ [a] := by
  unfold dropRightWhile
  rw [List.reverse_append]
  simp [List.dropWhile_cons, h]

theorem trim_decomp (l m : List Char) (h : trim l = m) :
    ∃ w1 w2, (∀ c ∈ w1, isWs c = true) ∧ (∀ c ∈ w2, isWs c = true) ∧ l = w1 ++ (m ++ w2) := by
  unfold trim dropRightWhile at h
  refine ⟨l.takeWhile isWs, ((l.dropWhile isWs).reverse.takeWhile isWs).reverse,
    fun c hc => List.mem_takeWhile_imp hc,
    fun c hc => List.mem_takeWhile_imp (List.mem_reverse.mp hc), ?_⟩
  have h2 : (l.dropWhile isWs).reverse.takeWhile isWs ++ (l.dropWhile isWs).reverse.dropWhile isWs
      = (l.dropWhile isWs).reverse := List.takeWhile_append_dropWhile isWs (l.dropWhile isWs).reverse
  have h3 : l.dropWhile isWs
      = ((l.dropWhile isWs).reverse.dropWhile isWs).reverse
        ++ ((l.dropWhile isWs).reverse.takeWhile isWs).reverse := by
    have := congrArg List.reverse h2
    rw [List.reverse_append, List.reverse_reverse] at this
    exact this.symm
  rw [h] at h3
  calc l = l.takeWhile isWs ++ l.dropWhile isWs := (List.takeWhile_append_dropWhile isWs l).symm
    _ = l.takeWhile isWs ++ (m ++ ((l.dropWhile isWs).reverse.takeWhile isWs).reverse) := by rw [← h3]

theorem startsWith_exists : ∀ (l pat : List Char), startsWith l pat = true → ∃ t, l = pat ++ t := by
  intro l pat
  induction pat generalizing l with
  | nil => intro _; exact ⟨l, rfl⟩
  | cons p ps ih =>
    intro h
    cases l with
    | nil => simp [startsWith] at h
    | cons c cs =>
      simp only [startsWith, Bool.and_eq_true, beq_iff_eq] at h
      obtain ⟨t, ht⟩ := ih cs h.2
      exact ⟨t, by rw [h.1, ht]; rfl⟩

theorem dropRightWhile_sublist (p : Char → Bool) (m : List Char) :
    List.Sublist (dropRightWhile p m) m := by
  have h : List.Sublist ((m.reverse.dropWhile p).reverse) m.reverse.reverse :=
    (List.dropWhile_sublist p).reverse
  rw [List.reverse_reverse] at h
  exact h

theorem mem_of_mem_trim (c : Char) (l : List Char) (h : c ∈ trim l) : c ∈ l := by
  unfold trim at h
  exact (List.dropWhile_sublist isWs).subset ((dropRightWhile_sublist isWs _).subset h)

theorem eq_mem_of_pNameLine (l : List Char) (h : pNameLine l = true) : '=' ∈ l := by
  obtain ⟨t, ht⟩ := startsWith_exists (trim l) (str "name =") h
  refine mem_of_mem_trim '=' l ?_
  rw [ht]
  exact List.mem_append_left t (by decide)

theorem eq_mem_of_pVersionLine (l : List Char) (h : pVersionLine l = true) : '=' ∈ l := by
  obtain ⟨t, ht⟩ := startsWith_exists (trim l) (str "version =") h
  refine mem_of_mem_trim '=' l ?_
  rw [ht]
  exact List.mem_append_left t (by decide)

theorem extractValue_isSome (l : List Char) (h : '=' ∈ l) : ∃ v, extractValue l = some v := by
  have h2 := two_le_splitChar_length '=' l h
  have h3 : (splitChar '=' l)[1]? = some ((splitChar '=' l).get ⟨1, h2⟩) :=
    List.getElem?_eq_some.mpr ⟨h2, rfl⟩
  exact ⟨_, by unfold extractValue; rw [h3]⟩

theorem isWs_ne_eq (c : Char) (h : isWs c = true) : c ≠ '=' := by
  intro he; rw [he] at h; exact absurd h (by decide)

theorem trim_inner_value (x w2 : List Char) (hw2 : ∀ c ∈ w2, isWs c = true) :
    trim (' ' :: '"' :: (x ++ ('"' :: w2))) = '"' :: (x ++ ['"']) := by
  unfold trim
  have h1 : (' ' :: '"' :: (x ++ ('"' :: w2))).dropWhile isWs = '"' :: (x ++ ('"' :: w2)) := by
    simp [List.dropWhile_cons, isWs]
  rw [h1]
  have h2 : '"' :: (x ++ ('"' :: w2)) = (('"' :: x) ++ ['"']) ++ w2 := by simp
  rw [h2, dropRightWhile_append_of_all isWs _ w2 hw2,
    dropRightWhile_concat_of_neg isWs _ '"' (by decide)]
  simp

theorem trimMatches_quote (x : List Char) (hq : '"' ∉ x) :
    trimMatches '"' ('"' :: (x ++ ['"'])) = x := by
  unfold trimMatches
  have h1 : ('"' :: (x ++ ['"'])).dropWhile (fun d => d == '"') = (x ++ ['"']).dropWhile (fun d => d == '"') := by
    simp [List.dropWhile_cons]
  rw [h1]
  cases x with
  | nil => rfl
  | cons hx xt =>
    have hhx : (hx == '"') = false := by
      simp only [beq_eq_false_iff_ne, ne_eq]
      intro he; exact hq (he ▸ List.mem_cons_self hx xt)
    have h2 : ((hx :: xt) ++ ['"']).dropWhile (fun d => d == '"') = (hx :: xt) ++ ['"'] := by
      simp [List.dropWhile_cons, hhx]
    rw [h2]
    unfold dropRightWhile
    rw [List.reverse_append]
    have h3 : (['"'].reverse ++ (hx :: xt).reverse).dropWhile (fun d => d == '"')
        = (hx :: xt).reverse.dropWhile (fun d => d == '"') := by
      simp [List.dropWhile_cons]
    have h4 : (hx :: xt).reverse.dropWhile (fun d => d == '"') = (hx :: xt).reverse := by
      refine dropWhile_eq_self_of_all _ _ (fun a ha => ?_)
      have hmem : a ∈ hx :: xt := List.mem_reverse.mp ha
      simp only [beq_eq_false_iff_ne, ne_eq]
      intro he; exact hq (he ▸ hmem)
    rw [h3, h4, List.reverse_reverse]

theorem extractValue_wf (pre x w1 w2 : List Char)
    (hpre : '=' ∉ pre) (hx : '=' ∉ x) (hq : '"' ∉ x)
    (hw1 : ∀ c ∈ w1, isWs c = true) (hw2 : ∀ c ∈ w2, isWs c = true) :
    extractValue (w1 ++ ((pre ++ ('=' :: ' ' :: '"' :: (x ++ ['"']))) ++ w2)) = some x := by
  have hshape : w1 ++ ((pre ++ ('=' :: ' ' :: '"' :: (x ++ ['"']))) ++ w2)
      = (w1 ++ pre) ++ ('=' :: (' ' :: '"' :: (x ++ ('"' :: w2)))) := by
    simp [List.append_assoc]
  have hA : '=' ∉ w1 ++ pre := by
    intro hmem
    rcases List.mem_append.mp hmem with h | h
    · exact isWs_ne_eq _ (hw1 _ h) rfl
    · exact hpre h
  have hB : '=' ∉ (' ' :: '"' :: (x ++ ('"' :: w2))) := by
    intro hmem
    simp only [List.mem_cons, List.mem_append] at hmem
    rcases hmem with h | h | h | h | h
    · exact absurd h (by decide)
    · exact absurd h (by decide)
    · exact hx h
    · exact absurd h (by decide)
    · exact isWs_ne_eq _ (hw2 _ h) rfl
  rw [hshape]
  unfold extractValue
  rw [splitChar_append '=' (w1 ++ pre) _ hA, splitChar_of_not_mem '=' _ hB]
  have hget : (((w1 ++ pre) : List Char) :: [' ' :: '"' :: (x ++ ('"' :: w2))])[1]?
      = some (' ' :: '"' :: (x ++ ('"' :: w2))) := rfl
  rw [hget]
  show some (trimMatches '"' (trim (' ' :: '"' :: (x ++ ('"' :: w2))))) = some x
  rw [trim_inner_value x w2 hw2, trimMatches_quote x hq]

theorem splitChar_head (c : Char) (l : List Char) :
    (splitChar c l).head? = some (l.takeWhile (fun d => !(d == c))) := by
  induction l with
  | nil => rfl
  | cons x xs ih =>
    by_cases hx : (x == c) = true
    · simp [splitChar, hx, List.takeWhile_cons]
    · have hxf : (x == c) = false := by simpa using hx
      simp only [splitChar, hxf, Bool.false_eq_true, if_false]
      cases hsp : splitChar c xs with
      | nil => exact absurd hsp (splitChar_ne_nil c xs)
      | cons y ys =>
        rw [hsp] at ih
        simp only [List.head?_cons, Option.some.injEq] at ih
        simp [List.takeWhile_cons, hxf, ← ih]

/-! ## C1, C2, C3: the Metadata Reader -/

/-- C1: for every manifest whose first name-matching line is a well-formed
line name = "x" and whose first version-matching line is a well-formed
line version = "y" (well-formed meaning the trimmed line is exactly the
key, one space, '=', one space, and the value in double quotes, the value
containing neither '=' nor a double quote), get_cargo_metadata returns
exactly the pair (x, y), whatever the surrounding lines are. -/
theorem metadata_returns_wellformed_pair (ls : List (List Char)) (nl vl x y : List Char)
    (h1 : ls.find? pNameLine = some nl)
    (h2 : trim nl = str "name = \"" ++ (x ++ str "\""))
    (h3 : '=' ∉ x) (h4 : '"' ∉ x)
    (h5 : ls.find? pVersionLine = some vl)
    (h6 : trim vl = str "version = \"" ++ (y ++ str "\""))
    (h7 : '=' ∉ y) (h8 : '"' ∉ y) :
    get_cargo_metadata ls = some (x, y) := by
  have e1 : extractValue nl = some x := by
    obtain ⟨w1, w2, hw1, hw2, hdec⟩ := trim_decomp nl _ h2
    have hm : str "name = \"" ++ (x ++ str "\"")
        = str "name " ++ ('=' :: ' ' :: '"' :: (x ++ ['"'])) := rfl
    rw [hdec, hm]
    exact extractValue_wf (str "name ") x w1 w2 (by decide) h3 h4 hw1 hw2
  have e2 : extractValue vl = some y := by
    obtain ⟨w1, w2, hw1, hw2, hdec⟩ := trim_decomp vl _ h6
    have hm : str "version = \"" ++ (y ++ str "\"")
        = str "version " ++ ('=' :: ' ' :: '"' :: (y ++ ['"'])) := rfl
    rw [hdec, hm]
    exact extractValue_wf (str "version ") y w1 w2 (by decide) h7 h8 hw1 hw2
  unfold get_cargo_metadata
  rw [h1, h5]
  simp only [e1, e2]

/-- Witness for C1 at a concrete three-line manifest. -/
theorem metadata_returns_wellformed_pair_witness :
    get_cargo_metadata [str "[package]", str "name = \"svc\"", str "version = \"0.1.0\""]
      = some (str "svc", str "0.1.0") :=
  metadata_returns_wellformed_pair _ (str "name = \"svc\"") (str "version = \"0.1.0\"")
    (str "svc") (str "0.1.0") (by decide) (by decide) (by decide) (by decide)
    (by decide) (by decide) (by decide) (by decide)

/-- C2 counterexample: on the line name = "a=b" the reader returns "a",
the segment between the first and the second '=', not the full remainder
"a=b" after the first '=' that the claim promises (valueAfterFirstEq is
the claim reading). -/
theorem extract_truncated_counterexample :
    get_cargo_metadata [str "name = \"a=b\"", str "version = \"1\""] = some (str "a", str "1")
    ∧ valueAfterFirstEq (str "name = \"a=b\"") = some (str "a=b")
    ∧ ¬ (str "a" = str "a=b") := by decide

/-- C2 amended: the value extracted from a selected line is the segment of
the line strictly between the first '=' and the second '=' (the whole
remainder only when no second '=' exists), with whitespace and then
surrounding double quotes trimmed; a value containing '=' is therefore
truncated at the second '='. -/
theorem extractValue_between_eqs (a b : List Char) (h : '=' ∉ a) :
    extractValue (a ++ '=' :: b)
      = some (trimMatches '"' (trim (b.takeWhile (fun c => !(c == '='))))) := by
  unfold extractValue
  rw [splitChar_append '=' a b h]
  cases hsp : splitChar '=' b with
  | nil => exact absurd hsp (splitChar_ne_nil '=' b)
  | cons y ys =>
    have hy := splitChar_head '=' b
    rw [hsp] at hy
    simp only [List.head?_cons, Option.some.injEq] at hy
    rw [hy]
    simp

/-- Witness for C2 amended at a concrete line containing two '='. -/
theorem extractValue_between_eqs_witness :
    extractValue (str "name " ++ '=' :: str " \"a=b\"")
      = some (trimMatches '"' (trim ((str " \"a=b\"").takeWhile (fun c => !(c == '='))))) :=
  extractValue_between_eqs (str "name ") (str " \"a=b\"") (by decide)

/-- C3: get_cargo_metadata fails exactly when the manifest has no line
whose trimmed form starts with name =, or none starting with version =,
or a selected line contains no '=' at all; on every other input it
succeeds. The last two disjuncts are vacuous, since a line whose trimmed
form starts with the key followed by " =" always contains '='. -/
theorem metadata_fails_iff (ls : List (List Char)) :
    get_cargo_metadata ls = none ↔
      ls.find? pNameLine = none ∨ ls.find? pVersionLine = none ∨
      (∃ l, ls.find? pNameLine = some l ∧ '=' ∉ l) ∨
      (∃ l, ls.find? pVersionLine = some l ∧ '=' ∉ l) := by
  constructor
  · intro h
    cases hn : ls.find? pNameLine with
    | none => exact Or.inl rfl
    | some nl =>
      cases hv : ls.find? pVersionLine with
      | none => exact Or.inr (Or.inl rfl)
      | some vl =>
        exfalso
        obtain ⟨a, ha⟩ := extractValue_isSome nl (eq_mem_of_pNameLine nl (List.find?_some hn))
        obtain ⟨b, hb⟩ := extractValue_isSome vl (eq_mem_of_pVersionLine vl (List.find?_some hv))
        unfold get_cargo_metadata at h
        rw [hn, hv] at h
        simp only [ha, hb] at h
        exact Option.noConfusion h
  · intro h
    rcases h with h | h | ⟨l, hl, hne⟩ | ⟨l, hl, hne⟩
    · unfold get_cargo_metadata; rw [h]
    · cases hn : ls.find? pNameLine with
      | none => unfold get_cargo_metadata; rw [hn]
      | some nl => unfold get_cargo_metadata; simp only [hn, h]
    · exact absurd (eq_mem_of_pNameLine l (List.find?_some hl)) hne
    · exact absurd (eq_mem_of_pVersionLine l (List.find?_some hl)) hne

/-- Witness for C3: the empty manifest has no name line and the reader
fails on it. -/
theorem metadata_fails_iff_witness : get_cargo_metadata [] = none :=
  (metadata_fails_iff []).mpr (Or.inl (by decide))

/-! ## C4: the Root Locator -/

/-- C4: with directories as component lists innermost first, the ancestors
of the working directory w are its suffixes w.drop j, the directory at
depth d being w.drop k for k = w.length - d. If the manifest exists at
w.drop k and at no strictly deeper directory w.drop j with j < k on the
path, find_project_root returns exactly w.drop k, for every k up to the
length; when no ancestor up to the filesystem root has the manifest it
returns the NotFound error, modelled as none. -/
theorem find_project_root_spec (hasM : List String → Bool) (w : List String) :
    (∀ k, k ≤ w.length → hasM (w.drop k) = true →
      (∀ j, j < k → hasM (w.drop j) = false) →
      find_project_root hasM w = some (w.drop k))
    ∧ ((∀ j, j ≤ w.length → hasM (w.drop j) = false) → find_project_root hasM w = none) := by
  induction w with
  | nil =>
    constructor
    · intro k hk hfound _
      have hk0 : k = 0 := Nat.le_zero.mp hk
      subst hk0
      simp only [List.drop_nil] at hfound ⊢
      simp [find_project_root, hfound]
    · intro hall
      have h0 := hall 0 (Nat.le_refl 0)
      simp only [List.drop_nil] at h0
      simp [find_project_root, h0]
  | cons c t ih =>
    constructor
    · intro k hk hfound hbelow
      cases k with
      | zero =>
        simp only [List.drop_zero] at hfound ⊢
        simp [find_project_root, hfound]
      | succ k2 =>
        have h0 : hasM (c :: t) = false := by
          have := hbelow 0 (Nat.succ_pos k2)
          simpa using this
        have hrec := ih.1 k2 (by simpa using hk)
          (by simpa using hfound)
          (fun j hj => by
            have := hbelow (j + 1) (Nat.succ_lt_succ hj)
            simpa using this)
        simp only [List.drop_succ_cons]
        simp [find_project_root, h0, hrec]
    · intro hall
      have h0 : hasM (c :: t) = false := by
        have := hall 0 (Nat.zero_le _)
        simpa using this
      have hrec := ih.2 (fun j hj => by
        have := hall (j + 1) (by simpa using Nat.succ_le_succ hj)
        simpa using this)
      simp [find_project_root, h0, hrec]

/-- Witness for C4: a manifest two levels up is found, and a tree with no
manifest anywhere on the path yields none. -/
theorem find_project_root_spec_witness :
    find_project_root (fun p => decide (p = (["a"] : List String))) ["x", "y", "a"] = some ["a"]
    ∧ find_project_root (fun _ => false) ["x"] = none := by
  constructor
  · exact (find_project_root_spec (fun p => decide (p = (["a"] : List String))) ["x", "y", "a"]).1
      2 (by decide) (by decide) (fun j hj => by interval_cases j <;> decide)
  · exact (find_project_root_spec (fun _ => false) ["x"]).2 (fun j _ => rfl)

/-! ## C5: the Revision Resolver fallback -/

/-- C5: whenever get_git_revision fails for any of its reasons (tool
missing, non-zero exit, undecodable output), the revision actually used
is the literal sentinel unknown, and the run is identical to the run of
the same environment with a successful lookup answering unknown: the
failure is absorbed and the pipeline proceeds exactly as it would have,
rather than aborting. No error constructor of the model corresponds to
the git step, so this is the only absorbed failure. -/
theorem git_failure_absorbed (env : Env) (a : Args)
    (h : get_git_revision env.git = none) :
    gitRevisionUsed env.git = str "unknown"
    ∧ run env a = run ⟨env.cwd, env.hasManifest, env.readManifest,
        ⟨true, true, some (str "unknown")⟩, env.fileExists, env.cargoBuildExec,
        env.dockerBuildExec, env.exportExec, env.now⟩ a := by
  have e1 : gitRevisionUsed env.git = str "unknown" := by
    unfold gitRevisionUsed
    rw [h]
    rfl
  have e2 : gitRevisionUsed (⟨true, true, some (str "unknown")⟩ : GitOutcome)
      = str "unknown" := by decide
  exact ⟨e1, by unfold run; rw [e1]; rw [show (⟨env.cwd, env.hasManifest, env.readManifest,
    ⟨true, true, some (str "unknown")⟩, env.fileExists, env.cargoBuildExec,
    env.dockerBuildExec, env.exportExec, env.now⟩ : Env).git
      = (⟨true, true, some (str "unknown")⟩ : GitOutcome) from rfl, e2]⟩

/-- Witness for C5 at a concrete environment whose git command exits
non-zero. -/
theorem git_failure_absorbed_witness :
    gitRevisionUsed gitFailEnv.git = str "unknown"
    ∧ run gitFailEnv baseArgs = run ⟨gitFailEnv.cwd, gitFailEnv.hasManifest,
        gitFailEnv.readManifest, ⟨true, true, some (str "unknown")⟩, gitFailEnv.fileExists,
        gitFailEnv.cargoBuildExec, gitFailEnv.dockerBuildExec, gitFailEnv.exportExec,
        gitFailEnv.now⟩ baseArgs :=
  git_failure_absorbed gitFailEnv baseArgs (by decide)

/-! ## C6: the Label Builder -/

theorem foldl_append_eq_catMap (g : α → List β) (l : List α) :
    ∀ init : List β, l.foldl (fun acc t => acc ++ g t) init = init ++ catMap g l := by
  induction l with
  | nil => intro init; simp [catMap]
  | cons x xs ih => intro init; simp [List.foldl_cons, catMap, ih, List.append_assoc]

theorem catMap_append (g : α → List β) (l1 l2 : List α) :
    catMap g (l1 ++ l2) = catMap g l1 ++ catMap g l2 := by
  induction l1 with
  | nil => simp [catMap]
  | cons x xs ih => simp [catMap, ih, List.append_assoc]

theorem add_label_eq (args : List (List Char)) (k v : List Char) :
    add_label args k v = args ++ labelBlock [(k, v)] := by
  simp [add_label, labelBlock, catMap]

theorem addOptLabel_eq (args : List (List Char)) (k : List Char) (o : Option (List Char)) :
    addOptLabel args k o = args ++ labelBlock (optLabel k o) := by
  cases o <;> simp [addOptLabel, add_label, labelBlock, optLabel, catMap]

theorem buildDockerArgs_eq (a : Args) (image_name image_tag image_full git_revision now : List Char) :
    buildDockerArgs a image_name image_tag image_full git_revision now =
      ([str "build", str "-t", image_full, str "-f", a.dockerfile]
        ++ catMap (fun t => [str "-t", image_name ++ ':' :: t]) a.tags)
      ++ (labelBlock ([(str "org.opencontainers.image.created", now),
            (str "org.opencontainers.image.version", image_tag),
            (str "org.opencontainers.image.revision", git_revision),
            (str "org.opencontainers.image.title", a.title.getD image_name)]
          ++ (optLabel (str "org.opencontainers.image.description") a.description
          ++ (optLabel (str "org.opencontainers.image.authors") a.authors
          ++ (optLabel (str "org.opencontainers.image.url") a.url
          ++ (optLabel (str "org.opencontainers.image.source") a.source
          ++ (optLabel (str "org.opencontainers.image.vendor") a.vendor
          ++ (optLabel (str "org.opencontainers.image.licenses") a.licenses
          ++ optLabel (str "application_name") a.application_name)))))))
        ++ [str "."]) := by
  simp only [buildDockerArgs]
  rw [foldl_append_eq_catMap]
  simp [add_label_eq, addOptLabel_eq, labelBlock, catMap_append, catMap, List.append_assoc]

/-- C6: the docker build argument vector is exactly the base arguments and
extra tags, followed by the ordered label block, followed by the build
context: the label sequence always begins with the creation-timestamp,
version (equal to the image tag), revision, and title labels, title being
the explicit override when given and the image name otherwise, and each
other optional label (description, authors, url, source, vendor,
licenses, application name) contributes exactly one entry with the
supplied value when its CLI input was supplied and no entry when it was
omitted, so that with no optional fields the label block holds exactly
the 4 leading labels in this stable order. -/
theorem label_builder_spec (a : Args) (image_name image_tag image_full git_revision now : List Char) :
    buildDockerArgs a image_name image_tag image_full git_revision now =
      ([str "build", str "-t", image_full, str "-f", a.dockerfile]
        ++ catMap (fun t => [str "-t", image_name ++ ':' :: t]) a.tags)
      ++ (labelBlock ([(str "org.opencontainers.image.created", now),
            (str "org.opencontainers.image.version", image_tag),
            (str "org.opencontainers.image.revision", git_revision),
            (str "org.opencontainers.image.title", a.title.getD image_name)]
          ++ (optLabel (str "org.opencontainers.image.description") a.description
          ++ (optLabel (str "org.opencontainers.image.authors") a.authors
          ++ (optLabel (str "org.opencontainers.image.url") a.url
          ++ (optLabel (str "org.opencontainers.image.source") a.source
          ++ (optLabel (str "org.opencontainers.image.vendor") a.vendor
          ++ (optLabel (str "org.opencontainers.image.licenses") a.licenses
          ++ optLabel (str "application_name") a.application_name)))))))
        ++ [str "."]) :=
  buildDockerArgs_eq a image_name image_tag image_full git_revision now

/-! ## C7, C8: the image build invocation and the export step -/

theorem run_trace_upto_docker (env : Env) (a : Args) (root : List String)
    (content : List (List Char)) (mn mv : List Char)
    (h1 : find_project_root env.hasManifest env.cwd = some root)
    (h2 : env.readManifest root = some content)
    (h3 : get_cargo_metadata content = some (mn, mv))
    (h4 : env.fileExists root a.dockerfile = true)
    (h5 : env.cargoBuildExec = some true) :
    ∃ tail, (run env a).1 = gitInv root :: cargoInv root ::
      dockerInv root (buildDockerArgs a (a.name.getD mn) (a.tag.getD mv)
        ((a.name.getD mn) ++ ':' :: (a.tag.getD mv)) (gitRevisionUsed env.git) env.now) :: tail := by
  cases h6 : env.dockerBuildExec with
  | none => exact ⟨[], by simp [run, h1, h2, h3, h4, h5, h6]⟩
  | some b =>
    cases b with
    | false => exact ⟨[], by simp [run, h1, h2, h3, h4, h5, h6]⟩
    | true =>
      cases h7 : a.exportImage with
      | false => exact ⟨[], by simp [run, h1, h2, h3, h4, h5, h6, h7]⟩
      | true =>
        refine ⟨[shInv root ((a.name.getD mn) ++ ':' :: (a.tag.getD mv))
          ((a.name.getD mn) ++ '-' :: ((a.tag.getD mv) ++ str ".tgz"))], ?_⟩
        cases h8 : env.exportExec with
        | none => simp [run, h1, h2, h3, h4, h5, h6, h7, h8]
        | some b2 => cases b2 <;> simp [run, h1, h2, h3, h4, h5, h6, h7, h8]

theorem run_trace_export (env : Env) (a : Args) (root : List String)
    (content : List (List Char)) (mn mv : List Char)
    (h1 : find_project_root env.hasManifest env.cwd = some root)
    (h2 : env.readManifest root = some content)
    (h3 : get_cargo_metadata content = some (mn, mv))
    (h4 : env.fileExists root a.dockerfile = true)
    (h5 : env.cargoBuildExec = some true)
    (h6 : env.dockerBuildExec = some true)
    (h7 : a.exportImage = true) :
    (run env a).1 = [gitInv root, cargoInv root,
      dockerInv root (buildDockerArgs a (a.name.getD mn) (a.tag.getD mv)
        ((a.name.getD mn) ++ ':' :: (a.tag.getD mv)) (gitRevisionUsed env.git) env.now),
      shInv root ((a.name.getD mn) ++ ':' :: (a.tag.getD mv))
        ((a.name.getD mn) ++ '-' :: ((a.tag.getD mv) ++ str ".tgz"))] := by
  cases h8 : env.exportExec with
  | none => simp [run, h1, h2, h3, h4, h5, h6, h7, h8]
  | some b2 => cases b2 <;> simp [run, h1, h2, h3, h4, h5, h6, h7, h8]

/-- C7: whenever the pipeline reaches the image build, the docker build
invocation (third attempted command in the trace, after git and cargo)
carries the primary tag name:tag first, name defaulting to the manifest
package name unless overridden and tag defaulting to the manifest version
unless overridden, followed by one -t name:t for each entry t of the
comma-split additional tags, in the given order, before the label block
and build context. -/
theorem image_tags_spec (env : Env) (a : Args) (root : List String)
    (content : List (List Char)) (mn mv : List Char)
    (h1 : find_project_root env.hasManifest env.cwd = some root)
    (h2 : env.readManifest root = some content)
    (h3 : get_cargo_metadata content = some (mn, mv))
    (h4 : env.fileExists root a.dockerfile = true)
    (h5 : env.cargoBuildExec = some true) :
    ∃ rest, (run env a).1[2]? = some (Invocation.mk (str "docker")
      (([str "build", str "-t", (a.name.getD mn) ++ ':' :: (a.tag.getD mv), str "-f", a.dockerfile]
        ++ catMap (fun t => [str "-t", (a.name.getD mn) ++ ':' :: t]) a.tags) ++ rest) root) := by
  obtain ⟨tail, htr⟩ := run_trace_upto_docker env a root content mn mv h1 h2 h3 h4 h5
  refine ⟨labelBlock ([(str "org.opencontainers.image.created", env.now),
      (str "org.opencontainers.image.version", a.tag.getD mv),
      (str "org.opencontainers.image.revision", gitRevisionUsed env.git),
      (str "org.opencontainers.image.title", a.title.getD (a.name.getD mn))]
    ++ (optLabel (str "org.opencontainers.image.description") a.description
    ++ (optLabel (str "org.opencontainers.image.authors") a.authors
    ++ (optLabel (str "org.opencontainers.image.url") a.url
    ++ (optLabel (str "org.opencontainers.image.source") a.source
    ++ (optLabel (str "org.opencontainers.image.vendor") a.vendor
    ++ (optLabel (str "org.opencontainers.image.licenses") a.licenses
    ++ optLabel (str "application_name") a.application_name)))))))
    ++ [str "."], ?_⟩
  rw [htr, buildDockerArgs_eq]
  simp [dockerInv]

/-- Witness for C7: the worked example of the spec, tag 1.2.3 with
additional tags beta,edge on the package svc; the docker invocation
carries svc:1.2.3, then svc:beta, then svc:edge. -/
theorem image_tags_spec_witness :
    ∃ rest, (run goodEnv exampleArgs).1[2]? = some (Invocation.mk (str "docker")
      (([str "build", str "-t",
          (exampleArgs.name.getD (str "svc")) ++ ':' :: (exampleArgs.tag.getD (str "0.1.0")),
          str "-f", exampleArgs.dockerfile]
        ++ catMap (fun t => [str "-t", (exampleArgs.name.getD (str "svc")) ++ ':' :: t]) exampleArgs.tags)
        ++ rest) []) :=
  image_tags_spec goodEnv exampleArgs []
    [str "[package]", str "name = \"svc\"", str "version = \"0.1.0\""]
    (str "svc") (str "0.1.0") (by decide) rfl (by decide) rfl rfl

/-- C8: under the hypotheses that the pipeline reaches the image build,
the export invocation is attempted exactly when export was requested and
the image build succeeded; it is the fourth command, run with the project
root as working directory, and its shell command pipes docker save of
name:tag through gzip into the archive file name-tag.tgz (created in the
working directory, the project root, by the output redirection); when it
exits non-zero the run aborts with the ExportFailed error. -/
theorem export_spec (env : Env) (a : Args) (root : List String)
    (content : List (List Char)) (mn mv : List Char)
    (h1 : find_project_root env.hasManifest env.cwd = some root)
    (h2 : env.readManifest root = some content)
    (h3 : get_cargo_metadata content = some (mn, mv))
    (h4 : env.fileExists root a.dockerfile = true)
    (h5 : env.cargoBuildExec = some true) :
    (a.exportImage = true → env.dockerBuildExec = some true →
      (run env a).1[3]? = some (shInv root ((a.name.getD mn) ++ ':' :: (a.tag.getD mv))
        ((a.name.getD mn) ++ '-' :: ((a.tag.getD mv) ++ str ".tgz"))))
    ∧ (a.exportImage = false → ¬ str "sh" ∈ (run env a).1.map Invocation.prog)
    ∧ (env.dockerBuildExec = some false → ¬ str "sh" ∈ (run env a).1.map Invocation.prog)
    ∧ (a.exportImage = true → env.dockerBuildExec = some true → env.exportExec = some false →
      (run env a).2 = Outcome.err PErr.exportFailed) := by
  refine ⟨?_, ?_, ?_, ?_⟩
  · intro h7 h6
    rw [run_trace_export env a root content mn mv h1 h2 h3 h4 h5 h6 h7]
    rfl
  · intro h7
    cases h6 : env.dockerBuildExec with
    | none =>
      simp only [run, h1, h2, h3, h4, h5, h6, gitInv, cargoInv, dockerInv]
      simp
      decide
    | some b =>
      cases b with
      | false =>
        simp only [run, h1, h2, h3, h4, h5, h6, gitInv, cargoInv, dockerInv]
        simp
        decide
      | true =>
        simp only [run, h1, h2, h3, h4, h5, h6, h7, gitInv, cargoInv, dockerInv]
        simp
        decide
  · intro h6
    simp only [run, h1, h2, h3, h4, h5, h6, gitInv, cargoInv, dockerInv]
    simp
    decide
  · intro h7 h6 h8
    simp [run, h1, h2, h3, h4, h5, h6, h7, h8]

/-- Witness for C8 at a concrete run with export requested: the archive
command targets svc-1.2.3.tgz from the project root. -/
theorem export_spec_witness :
    (run goodEnv exportArgs).1[3]? = some (shInv []
      ((exportArgs.name.getD (str "svc")) ++ ':' :: (exportArgs.tag.getD (str "0.1.0")))
      ((exportArgs.name.getD (str "svc")) ++ '-' :: ((exportArgs.tag.getD (str "0.1.0")) ++ str ".tgz"))) :=
  (export_spec goodEnv exportArgs []
    [str "[package]", str "name = \"svc\"", str "version = \"0.1.0\""]
    (str "svc") (str "0.1.0") (by decide) rfl (by decide) rfl rfl).1 rfl rfl

/-! ## C9: pipeline ordering and fail-fast behaviour -/

theorem pipeProgs_nil : pipeProgs [] = [] := rfl

theorem pipeProgs_trace1 (root : List String) : pipeProgs [gitInv root] = [] := by
  simp only [pipeProgs, gitInv, List.map_cons, List.map_nil]
  decide

theorem pipeProgs_trace2 (root : List String) :
    pipeProgs [gitInv root, cargoInv root] = [str "cargo"] := by
  simp only [pipeProgs, gitInv, cargoInv, List.map_cons, List.map_nil]
  decide

theorem pipeProgs_trace3 (root : List String) (dargs : List (List Char)) :
    pipeProgs [gitInv root, cargoInv root, dockerInv root dargs] = [str "cargo", str "docker"] := by
  simp only [pipeProgs, gitInv, cargoInv, dockerInv, List.map_cons, List.map_nil]
  decide

theorem pipeProgs_trace4 (root : List String) (dargs : List (List Char)) (f ar : List Char) :
    pipeProgs [gitInv root, cargoInv root, dockerInv root dargs, shInv root f ar]
      = [str "cargo", str "docker", str "sh"] := by
  simp only [pipeProgs, gitInv, cargoInv, dockerInv, shInv, List.map_cons, List.map_nil]
  decide

/-- C9: in every run the three pipeline commands occur in the trace in
the fixed order cargo build, docker build, export shell, each attempted
at most once (the pipeline projection of the trace is a prefix of that
three-element sequence); the export command occurs only when requested; a
cargo build failure leaves the pipeline trace at exactly the cargo
command, a docker build failure at exactly cargo then docker, and an
export failure at the full sequence, so no later pipeline command is ever
attempted after an earlier one has failed; and the process exit status is
zero exactly when the outcome is Ok, every propagated error exiting
non-zero. -/
theorem pipeline_order_spec (env : Env) (a : Args) :
    List.isPrefixOf (pipeProgs (run env a).1) [str "cargo", str "docker", str "sh"] = true
    ∧ (str "sh" ∈ pipeProgs (run env a).1 → a.exportImage = true)
    ∧ ((run env a).2 = Outcome.err PErr.cargoBuildFailed
        ∨ (run env a).2 = Outcome.err PErr.cargoBuildSpawnFailed →
        pipeProgs (run env a).1 = [str "cargo"])
    ∧ ((run env a).2 = Outcome.err PErr.dockerBuildFailed
        ∨ (run env a).2 = Outcome.err PErr.dockerBuildSpawnFailed →
        pipeProgs (run env a).1 = [str "cargo", str "docker"])
    ∧ ((run env a).2 = Outcome.err PErr.exportFailed
        ∨ (run env a).2 = Outcome.err PErr.exportSpawnFailed →
        pipeProgs (run env a).1 = [str "cargo", str "docker", str "sh"] ∧ a.exportImage = true)
    ∧ (exitCode (run env a).2 = 0 ↔ (run env a).2 = Outcome.ok) := by
  cases h1 : find_project_root env.hasManifest env.cwd with
  | none =>
    simp only [run, h1, pipeProgs_nil]
    exact ⟨by decide, fun h => absurd h (by decide), fun h => absurd h (by decide),
      fun h => absurd h (by decide), fun h => absurd h (by decide), by decide⟩
  | some root =>
  cases h2 : env.readManifest root with
  | none =>
    simp only [run, h1, h2, pipeProgs_nil]
    exact ⟨by decide, fun h => absurd h (by decide), fun h => absurd h (by decide),
      fun h => absurd h (by decide), fun h => absurd h (by decide), by decide⟩
  | some content =>
  cases h3 : get_cargo_metadata content with
  | none =>
    simp only [run, h1, h2, h3, pipeProgs_nil]
    exact ⟨by decide, fun h => absurd h (by decide), fun h => absurd h (by decide),
      fun h => absurd h (by decide), fun h => absurd h (by decide), by decide⟩
  | some md =>
  cases h4 : env.fileExists root a.dockerfile with
  | false =>
    simp only [run, h1, h2, h3, h4, pipeProgs_trace1]
    exact ⟨by decide, fun h => absurd h (by decide), fun h => absurd h (by decide),
      fun h => absurd h (by decide), fun h => absurd h (by decide), by decide⟩
  | true =>
  cases h5 : env.cargoBuildExec with
  | none =>
    simp only [run, h1, h2, h3, h4, h5, List.singleton_append, List.cons_append,
      List.nil_append, pipeProgs_trace2]
    exact ⟨by decide, fun h => absurd h (by decide), fun _ => by decide,
      fun h => absurd h (by decide), fun h => absurd h (by decide), by decide⟩
  | some b =>
  cases b with
  | false =>
    simp only [run, h1, h2, h3, h4, h5, List.singleton_append, List.cons_append,
      List.nil_append, pipeProgs_trace2]
    exact ⟨by decide, fun h => absurd h (by decide), fun _ => by decide,
      fun h => absurd h (by decide), fun h => absurd h (by decide), by decide⟩
  | true =>
  cases h6 : env.dockerBuildExec with
  | none =>
    simp only [run, h1, h2, h3, h4, h5, h6, List.singleton_append, List.cons_append,
      List.nil_append, pipeProgs_trace3]
    exact ⟨by decide, fun h => absurd h (by decide), fun h => absurd h (by decide),
      fun _ => by decide, fun h => absurd h (by decide), by decide⟩
  | some b2 =>
  cases b2 with
  | false =>
    simp only [run, h1, h2, h3, h4, h5, h6, List.singleton_append, List.cons_append,
      List.nil_append, pipeProgs_trace3]
    exact ⟨by decide, fun h => absurd h (by decide), fun h => absurd h (by decide),
      fun _ => by decide, fun h => absurd h (by decide), by decide⟩
  | true =>
  cases h7 : a.exportImage with
  | false =>
    simp only [run, h1, h2, h3, h4, h5, h6, h7, List.singleton_append, List.cons_append,
      List.nil_append, pipeProgs_trace3]
    exact ⟨by decide, fun h => absurd h (by decide), fun h => absurd h (by decide),
      fun h => absurd h (by decide), fun h => absurd h (by decide), by decide⟩
  | true =>
  cases h8 : env.exportExec with
  | none =>
    simp only [run, h1, h2, h3, h4, h5, h6, h7, h8, List.singleton_append, List.cons_append,
      List.nil_append, pipeProgs_trace4]
    exact ⟨by decide, fun _ => trivial, fun h => absurd h (by decide),
      fun h => absurd h (by decide), fun _ => ⟨by decide, trivial⟩, by decide⟩
  | some b3 =>
  cases b3 with
  | false =>
    simp only [run, h1, h2, h3, h4, h5, h6, h7, h8, List.singleton_append, List.cons_append,
      List.nil_append, pipeProgs_trace4]
    exact ⟨by decide, fun _ => trivial, fun h => absurd h (by decide),
      fun h => absurd h (by decide), fun _ => ⟨by decide, trivial⟩, by decide⟩
  | true =>
    simp only [run, h1, h2, h3, h4, h5, h6, h7, h8, List.singleton_append, List.cons_append,
      List.nil_append, pipeProgs_trace4]
    exact ⟨by decide, fun _ => trivial, fun h => absurd h (by decide),
      fun h => absurd h (by decide), fun h => absurd h (by decide), by decide⟩

/-- Witness for C9 at a failing cargo build: the pipeline trace stops at
the cargo command and the exit status is non-zero. -/
theorem pipeline_order_spec_witness :
    pipeProgs (run cargoFailEnv baseArgs).1 = [str "cargo"]
    ∧ ¬ (exitCode (run cargoFailEnv baseArgs).2 = 0) := by
  have h := pipeline_order_spec cargoFailEnv baseArgs
  refine ⟨h.2.2.1 (Or.inl (by decide)), ?_⟩
  intro h0
  have := (h.2.2.2.2.2).mp h0
  exact absurd this (by decide)

/-! ## C10: the Dockerfile existence check -/

/-- C10 counterexample: the check of the joined Dockerfile path is not
performed before every external command. In a run whose Dockerfile is
missing the program has already attempted the git rev-parse command (the
revision lookup of src/main.rs line 89 precedes the check of lines 92-95)
before it aborts at the check, so the trace at the abort is non-empty
rather than free of external commands. -/
theorem dockerfile_check_counterexample :
    (run noDockerfileEnv baseArgs).2 = Outcome.err PErr.dockerfileMissing
    ∧ ¬ ((run noDockerfileEnv baseArgs).1 = []) := by decide

/-- C10 amended: after the revision lookup (which invokes the
version-control command) but before invoking the project build, image
build, or export commands, the program checks that the path formed by
joining the project root with the dockerfile value exists; when it does
not, the run aborts with a fatal non-zero-exit error whose trace contains
only the git attempt, so the project build, image build, and export are
never run. -/
theorem dockerfile_check_aborts (env : Env) (a : Args) (root : List String)
    (content : List (List Char)) (mn mv : List Char)
    (h1 : find_project_root env.hasManifest env.cwd = some root)
    (h2 : env.readManifest root = some content)
    (h3 : get_cargo_metadata content = some (mn, mv))
    (h4 : env.fileExists root a.dockerfile = false) :
    (run env a).1.map Invocation.prog = [str "git"]
    ∧ (run env a).2 = Outcome.err PErr.dockerfileMissing
    ∧ exitCode (run env a).2 = 1 := by
  refine ⟨?_, ?_, ?_⟩ <;> simp [run, h1, h2, h3, h4, gitInv, exitCode]

/-- Witness for C10 amended at the concrete missing-Dockerfile
environment. -/
theorem dockerfile_check_aborts_witness :
    (run noDockerfileEnv baseArgs).1.map Invocation.prog = [str "git"]
    ∧ (run noDockerfileEnv baseArgs).2 = Outcome.err PErr.dockerfileMissing
    ∧ exitCode (run noDockerfileEnv baseArgs).2 = 1 :=
  dockerfile_check_aborts noDockerfileEnv baseArgs []
    [str "[package]", str "name = \"svc\"", str "version = \"0.1.0\""]
    (str "svc") (str "0.1.0") (by decide) rfl (by decide) rfl

end CargoDockerize
